import Mathlib

/-!
Verification of the peer-dependency installer/auditor of the
skyltmax/config repository (`scripts/peer-deps/install.js` and the
postinstall audit script), via a shallow embedding.

Modelling choices:
* A filesystem path is a `List String` of components from the root
  (so the filesystem root is `[]`, `dirname` drops the last component,
  and `dirname` of the root is the root itself, matching POSIX
  `dirname("/") = "/"`).
* The filesystem is a predicate `FS : List String → Bool` telling which
  paths exist (`existsSync`).
* A JS value that may be `undefined` is an `Option`; JS string
  truthiness (`if (managerArg)`) is `some s` with `s ≠ ""`.
* `async` functions that only read files are modelled as pure functions
  over the already-loaded data; fallible code returns `Except`.
-/

namespace PeerDeps

/-- A filesystem: which absolute paths (component lists) exist. -/
def FS : Type := List String → Bool

/-- JS truthiness of a possibly-undefined string
(`undefined`, `null` and `""` are falsy). -/
def jsTruthy : Option String → Bool
  | some s => s ≠ ""
  | none => false

/-- JS `String.prototype.startsWith` (used as
`userAgent.startsWith("pnpm/")` in the source), embedded as the
character-list prefix test it computes. -/
def jsStartsWith (s p : String) : Bool :=
  p.data.isPrefixOf s.data

/-- A parsed `package.json` manifest, as far as the scripts read it:
the `peerDependencies` object, absent (`none`) or an insertion-ordered
list of (name, exact version) entries. -/
structure Manifest where
  peerDependencies : Option (List (String × String))

/-- Embeds `loadPeerDependencies` of `install.js`: read the manifest
(modelled as already parsed), default the peers object to empty, and
map each entry to the specifier string `name@version`. -/
def loadPeerDependencies (manifest : Manifest) : List String :=
  let peers := manifest.peerDependencies.getD []
  peers.map (fun nv => nv.1 ++ "@" ++ nv.2)

/-- Embeds `detectManager` of `install.js`: explicit argument first,
then user-agent prefixes `pnpm/`, `bun/`, `npm/`, then lockfile probes
`pnpm-lock.yaml`, `bun.lockb`, `package-lock.json` in `cwd`,
then the default `"npm"`. -/
def detectManager (fs : FS) (managerArg : Option String)
    (userAgent : String) (cwd : List String) : String :=
  if jsTruthy managerArg then managerArg.getD ""
  else if jsStartsWith userAgent "pnpm/" then "pnpm"
  else if jsStartsWith userAgent "bun/" then "bun"
  else if jsStartsWith userAgent "npm/" then "npm"
  else if fs (cwd ++ ["pnpm-lock.yaml"]) then "pnpm"
  else if fs (cwd ++ ["bun.lockb"]) then "bun"
  else if fs (cwd ++ ["package-lock.json"]) then "npm"
  else "npm"

/-- The marker test of `findPnpmWorkspaceRoot`: the directory contains
`pnpm-workspace.yaml` or `pnpm-workspace.yml`. -/
def hasWorkspaceMarker (fs : FS) (dir : List String) : Bool :=
  fs (dir ++ ["pnpm-workspace.yaml"]) || fs (dir ++ ["pnpm-workspace.yml"])

/-- Embeds `findPnpmWorkspaceRoot` of `install.js`: walk upward from
`startDir`, returning the first directory holding a workspace marker;
`dirname` is `List.dropLast`, and the walk stops (returning `none`)
when the parent equals the current directory, i.e. at the root `[]`. -/
def findPnpmWorkspaceRoot (fs : FS) (current : List String) :
    Option (List String) :=
  if hasWorkspaceMarker fs current then some current
  else if current = [] then none
  else findPnpmWorkspaceRoot fs current.dropLast
termination_by current.length
decreasing_by
  have hne : current ≠ [] := by assumption
  have hpos : 0 < current.length := List.length_pos.mpr hne
  simp only [List.length_dropLast]
  omega

/-- The structured install command built by `buildInstallCommand`. -/
structure InstallCommand where
  command : String
  args : List String
  cwd : List String
deriving Repr, DecidableEq

/-- Embeds `buildInstallCommand` of `install.js`. Throwing is an
`Except.error` carrying the error message. The pnpm branch inserts
`"-w"` at index 2 of the args (the JS `args.splice(2, 0, "-w")`) when a
workspace root is found, and then runs from that root. -/
def buildInstallCommand (fs : FS) (manager : String)
    (packages : List String) (cwd : List String) :
    Except String InstallCommand :=
  if packages.length = 0 then
    .error "No peer dependencies to install."
  else if manager = "pnpm" then
    let workspaceRoot := findPnpmWorkspaceRoot fs cwd
    let args := ["add", "-D", "--save-exact"] ++ packages
    let args := match workspaceRoot with
      | some _ => args.insertIdx 2 "-w"
      | none => args
    .ok { command := "pnpm", args := args, cwd := workspaceRoot.getD cwd }
  else if manager = "npm" then
    .ok { command := "npm",
          args := ["install", "--save-dev", "--save-exact"] ++ packages,
          cwd := cwd }
  else if manager = "bun" then
    .ok { command := "bun",
          args := ["add", "--dev", "--exact"] ++ packages,
          cwd := cwd }
  else
    .error ("Unsupported package manager: " ++ manager ++
      ". Supported managers: npm, pnpm, bun")

/-- Embeds `formatCommand` of `install.js`:
`command` and `args` joined by single spaces. -/
def formatCommand (c : InstallCommand) : String :=
  c.command ++ " " ++ String.intercalate " " c.args

/-- The result of `prepareInstall`: either the `{ packages: [] }`
short-circuit when the manifest declares no peers, or the full record
with manager, packages, command, args, resolved cwd and the printable
string. -/
inductive PrepareResult
  | noPeers
  | ready (manager : String) (packages : List String) (command : String)
      (args : List String) (cwd : List String) (printable : String)
deriving Repr, DecidableEq

/-- Embeds `prepareInstall` of `install.js`: load the specifiers from
the manifest, short-circuit with `{ packages: [] }` when there are
none, otherwise detect the manager (the user agent is
`env.npm_config_user_agent ?? ""`), build the install command and
format the printable string. A thrown error propagates as
`Except.error`. -/
def prepareInstall (fs : FS) (managerArg : Option String)
    (userAgent : String) (cwd : List String) (manifest : Manifest) :
    Except String PrepareResult :=
  let packages := loadPeerDependencies manifest
  if packages.length = 0 then
    .ok .noPeers
  else
    let manager := detectManager fs managerArg userAgent cwd
    match buildInstallCommand fs manager packages cwd with
    | .error e => .error e
    | .ok c =>
        .ok (.ready manager packages c.command c.args c.cwd
          (formatCommand c))

/-- The usage text printed by `runCli --help`. -/
def HELP : String :=
  "Usage: skyltmax-config-peers [options]\n\n" ++
  "Options:\n" ++
  "  --manager <name>   npm | pnpm | bun (auto-detected by default)\n" ++
  "  --dry-run          Print the install command without running it\n" ++
  "  --help             Show this help message\n"

/-- Embeds `argValue` inside `runCli`: the literal next token after the
flag, or `undefined` when the flag is absent or the last token. -/
def argValue (args : List String) (flag : String) : Option String :=
  match args.findIdx? (· = flag) with
  | none => none
  | some index => args.get? (index + 1)

/-- The outcome of spawning the install command as a child process:
a close event with an exit code, or a spawn-level error. -/
inductive SpawnOutcome
  | exited (code : Int)
  | failed (message : String)
deriving Repr, DecidableEq

/-- What one `runCli` invocation did: exit code plus the lines written
to stdout and stderr, in order. -/
structure CliOutcome where
  exitCode : Int
  stdout : List String
  stderr : List String
deriving Repr, DecidableEq

/-- Embeds `runCli` of `install.js`. The child-process spawn is an
injected boundary function from (command, args, cwd) to its outcome.
`--help` wins; an empty packages result prints the no-peers notice and
returns 0; `--dry-run` prints the command and returns 0; otherwise the
command is printed and spawned, a zero exit code resolves to 0, and a
non-zero code or spawn error is caught, printed to stderr, and mapped
to exit code 1 — as is any error thrown by `prepareInstall`. -/
def runCli (fs : FS) (args : List String) (userAgent : String)
    (cwd : List String) (manifest : Manifest)
    (spawnChild : String → List String → List String → SpawnOutcome) :
    CliOutcome :=
  if args.contains "--help" then
    { exitCode := 0, stdout := [HELP], stderr := [] }
  else
    let managerArg := argValue args "--manager"
    let dryRun := args.contains "--dry-run"
    match prepareInstall fs managerArg userAgent cwd manifest with
    | .error e => { exitCode := 1, stdout := [], stderr := [e ++ "\n"] }
    | .ok .noPeers =>
        { exitCode := 0,
          stdout := ["No peer dependencies found on @skyltmax/config.\n"],
          stderr := [] }
    | .ok (.ready _ _ command cargs ccwd printable) =>
        if dryRun then
          { exitCode := 0, stdout := [printable ++ "\n"], stderr := [] }
        else
          match spawnChild command cargs ccwd with
          | .exited 0 =>
              { exitCode := 0,
                stdout := ["Running: " ++ printable ++ "\n"],
                stderr := [] }
          | .exited code =>
              { exitCode := 1,
                stdout := ["Running: " ++ printable ++ "\n"],
                stderr := [command ++ " exited with code " ++
                  toString code ++ "\n"] }
          | .failed message =>
              { exitCode := 1,
                stdout := ["Running: " ++ printable ++ "\n"],
                stderr := [message ++ "\n"] }

/-!
The postinstall audit script (`audit.js`). Module resolution through
the consumer's require and manifest reads are injected boundary
functions: `resolvePkg` maps a request string to the resolved path or a
resolution error, `readPkg` maps a path to the parsed manifest (with
its optional `version` field) or a read/parse error.
-/

/-- A resolved package's parsed manifest, as far as the audit reads it:
the `version` field, possibly absent. -/
structure PkgManifest where
  version : Option String
deriving Repr, DecidableEq

/-- A `missing` entry of the audit result. -/
structure MissingEntry where
  name : String
  expectedVersion : String
  reason : String
deriving Repr, DecidableEq

/-- A `mismatched` entry of the audit result. `actualVersion` is
`none` when the resolved manifest has no version field; `reason` is
set only for read/parse failures. -/
structure MismatchEntry where
  name : String
  expectedVersion : String
  actualVersion : Option String
  reason : Option String
deriving Repr, DecidableEq

/-- The audit result: the declared peers, the missing entries and the
mismatched entries, each in declaration order. -/
structure AuditResult where
  peers : List (String × String)
  missing : List MissingEntry
  mismatched : List MismatchEntry
deriving Repr, DecidableEq

/-- The per-peer loop of `auditPeerDependencies`: resolution failure
pushes a `missing` entry with the failure reason; a read/parse failure
of the resolved manifest pushes a `mismatched` entry with actual
version `"unknown"` and the error as reason; a version different from
the expected one (including an absent version field) pushes a
`mismatched` entry with both versions; an equal version pushes
nothing. -/
def auditLoop (resolvePkg : String → Except String String)
    (readPkg : String → Except String PkgManifest) :
    List (String × String) → List MissingEntry × List MismatchEntry
  | [] => ([], [])
  | (name, expectedVersion) :: rest =>
    match resolvePkg (name ++ "/package.json") with
    | .error e =>
        let (m, mm) := auditLoop resolvePkg readPkg rest
        (⟨name, expectedVersion, e⟩ :: m, mm)
    | .ok path =>
        match readPkg path with
        | .error e =>
            let (m, mm) := auditLoop resolvePkg readPkg rest
            (m, ⟨name, expectedVersion, some "unknown", some e⟩ :: mm)
        | .ok pkg =>
            if pkg.version = some expectedVersion then
              auditLoop resolvePkg readPkg rest
            else
              let (m, mm) := auditLoop resolvePkg readPkg rest
              (m, ⟨name, expectedVersion, pkg.version, none⟩ :: mm)

/-- Embeds `auditPeerDependencies` of the audit script: with no
declared peers, return empty lists immediately; otherwise run the
per-peer loop over the declared peers. -/
def auditPeerDependencies (resolvePkg : String → Except String String)
    (readPkg : String → Except String PkgManifest)
    (manifest : Manifest) : AuditResult :=
  let peers := manifest.peerDependencies.getD []
  if peers.length = 0 then
    { peers := peers, missing := [], mismatched := [] }
  else
    let (missing, mismatched) := auditLoop resolvePkg readPkg peers
    { peers := peers, missing := missing, mismatched := mismatched }

/-- Embeds `formatAuditMessage` of the audit script: `null` when both
lists are empty, otherwise the header line, the optional missing /
mismatch blocks, and the closing remediation line, joined by
newlines. A mismatch line appends ` (found v)` only when the recorded
actual version is truthy (present and non-empty). -/
def formatAuditMessage (missing : List MissingEntry)
    (mismatched : List MismatchEntry) : Option String :=
  if missing.length = 0 ∧ mismatched.length = 0 then
    none
  else
    let lines := ["[signmax-config] Peer dependency check detected issues:"]
    let lines := lines ++
      (if missing.length ≠ 0 then
        "  Missing peers:" ::
          missing.map (fun item =>
            "    - " ++ item.name ++ "@" ++ item.expectedVersion)
      else [])
    let lines := lines ++
      (if mismatched.length ≠ 0 then
        "  Version mismatches:" ::
          mismatched.map (fun item =>
            let details := match item.actualVersion with
              | some v => if v = "" then "" else " (found " ++ v ++ ")"
              | none => ""
            "    - " ++ item.name ++ "@" ++ item.expectedVersion ++ details)
      else [])
    let lines := lines ++
      ["  Run \"npx signmax-config-peers\" to install the correct versions."]
    some (String.intercalate "\n" lines)

/-!  Theorems settling the claims.  -/

/-- C1: for every non-empty package list and every cwd,
`buildInstallCommand` returns exactly the per-manager shape: npm
`install --save-dev --save-exact <pkgs>` with cwd unchanged, bun
`add --dev --exact <pkgs>` with cwd unchanged, pnpm
`add -D --save-exact <pkgs>` with cwd unchanged when no workspace root
is found, and with `-w` inserted right after `-D` and cwd redirected to
the workspace root when one is found; `formatCommand` joins command and
args with single spaces. -/
theorem buildInstallCommand_shape (fs : FS) (packages : List String)
    (cwd : List String) (h : packages ≠ []) :
    buildInstallCommand fs "npm" packages cwd =
      .ok ⟨"npm", ["install", "--save-dev", "--save-exact"] ++ packages,
        cwd⟩ ∧
    buildInstallCommand fs "bun" packages cwd =
      .ok ⟨"bun", ["add", "--dev", "--exact"] ++ packages, cwd⟩ ∧
    (findPnpmWorkspaceRoot fs cwd = none →
      buildInstallCommand fs "pnpm" packages cwd =
        .ok ⟨"pnpm", ["add", "-D", "--save-exact"] ++ packages, cwd⟩) ∧
    (∀ root, findPnpmWorkspaceRoot fs cwd = some root →
      buildInstallCommand fs "pnpm" packages cwd =
        .ok ⟨"pnpm", ["add", "-D", "-w", "--save-exact"] ++ packages,
          root⟩) ∧
    (∀ c : InstallCommand,
      formatCommand c = c.command ++ " " ++ String.intercalate " " c.args) := by
  have hlen : packages.length ≠ 0 := by
    simpa [List.length_eq_zero] using h
  refine ⟨?_, ?_, ?_, ?_, fun c => rfl⟩
  · simp [buildInstallCommand, hlen]
  · simp [buildInstallCommand, hlen]
  · intro hroot
    simp [buildInstallCommand, hlen, hroot]
  · intro root hroot
    simp [buildInstallCommand, hlen, hroot, List.insertIdx]

/-- C1 witness: the concrete npm example of the spec. -/
theorem buildInstallCommand_shape_witness :
    buildInstallCommand (fun _ => false) "npm" ["eslint@9.39.1"] [] =
      .ok ⟨"npm",
        ["install", "--save-dev", "--save-exact", "eslint@9.39.1"], []⟩ :=
  (buildInstallCommand_shape (fun _ => false) ["eslint@9.39.1"] []
    (by simp)).1

/-- C2: `buildInstallCommand` errors exactly when the package list is
empty or the manager is unsupported: an empty list errors with the same
message for every manager (the check precedes the manager dispatch), an
unsupported manager with a non-empty list errors with a message naming
that manager and the supported set, and every supported manager with a
non-empty list succeeds. -/
theorem buildInstallCommand_error_iff (fs : FS) (manager : String)
    (packages : List String) (cwd : List String) :
    ((∃ e, buildInstallCommand fs manager packages cwd = .error e) ↔
      packages = [] ∨ manager ∉ ["npm", "pnpm", "bun"]) ∧
    (packages = [] →
      buildInstallCommand fs manager packages cwd =
        .error "No peer dependencies to install.") ∧
    (packages ≠ [] → manager ∉ ["npm", "pnpm", "bun"] →
      buildInstallCommand fs manager packages cwd =
        .error ("Unsupported package manager: " ++ manager ++
          ". Supported managers: npm, pnpm, bun")) ∧
    (packages ≠ [] → manager ∈ ["npm", "pnpm", "bun"] →
      ∃ c, buildInstallCommand fs manager packages cwd = .ok c) := by
  have hempty : packages = [] →
      buildInstallCommand fs manager packages cwd =
        .error "No peer dependencies to install." := by
    intro he
    simp [buildInstallCommand, he]
  have hunsupported : packages ≠ [] → manager ∉ ["npm", "pnpm", "bun"] →
      buildInstallCommand fs manager packages cwd =
        .error ("Unsupported package manager: " ++ manager ++
          ". Supported managers: npm, pnpm, bun") := by
    intro hne hmem
    have hlen : packages.length ≠ 0 := by
      simpa [List.length_eq_zero] using hne
    simp only [List.mem_cons, List.not_mem_nil, or_false, not_or] at hmem
    obtain ⟨h1, h2, h3⟩ := hmem
    simp [buildInstallCommand, hlen, h1, h2, h3]
  have hok : packages ≠ [] → manager ∈ ["npm", "pnpm", "bun"] →
      ∃ c, buildInstallCommand fs manager packages cwd = .ok c := by
    intro hne hmem
    have hlen : packages.length ≠ 0 := by
      simpa [List.length_eq_zero] using hne
    simp only [List.mem_cons, List.not_mem_nil, or_false] at hmem
    rcases hmem with h | h | h <;> subst h
    · exact ⟨⟨"npm", ["install", "--save-dev", "--save-exact"] ++ packages,
        cwd⟩, by simp [buildInstallCommand, hlen]⟩
    · cases hroot : findPnpmWorkspaceRoot fs cwd with
      | none =>
          exact ⟨⟨"pnpm", ["add", "-D", "--save-exact"] ++ packages, cwd⟩,
            by simp [buildInstallCommand, hlen, hroot]⟩
      | some root =>
          exact ⟨⟨"pnpm",
            (["add", "-D", "--save-exact"] ++ packages).insertIdx 2 "-w",
            root⟩, by simp [buildInstallCommand, hlen, hroot]⟩
    · exact ⟨⟨"bun", ["add", "--dev", "--exact"] ++ packages, cwd⟩,
        by simp [buildInstallCommand, hlen]⟩
  refine ⟨⟨?_, ?_⟩, hempty, hunsupported, hok⟩
  · rintro ⟨e, he⟩
    by_contra hcon
    push_neg at hcon
    obtain ⟨hne, hmem⟩ := hcon
    obtain ⟨c, hc⟩ := hok hne hmem
    rw [he] at hc
    exact Except.noConfusion hc
  · rintro (he | hmem)
    · exact ⟨_, hempty he⟩
    · by_cases hne : packages = []
      · exact ⟨_, hempty hne⟩
      · exact ⟨_, hunsupported hne hmem⟩

/-- C2 witness: the unsupported manager `yarn` with a non-empty list
errors with the message naming it. -/
theorem buildInstallCommand_error_iff_witness :
    buildInstallCommand (fun _ => false) "yarn" ["eslint@9.39.1"] [] =
      .error ("Unsupported package manager: yarn. " ++
        "Supported managers: npm, pnpm, bun") :=
  (buildInstallCommand_error_iff (fun _ => false) "yarn"
    ["eslint@9.39.1"] []).2.2.1 (by simp) (by simp)

/-- C3: `detectManager` precedence — a truthy explicit argument wins;
otherwise the user-agent prefixes `pnpm/`, `bun/`, `npm/` in that
order; otherwise the lockfile probes `pnpm-lock.yaml`, `bun.lockb`,
`package-lock.json` in that order; otherwise `"npm"`. -/
theorem detectManager_precedence (fs : FS) (managerArg : Option String)
    (userAgent : String) (cwd : List String) :
    (∀ s, managerArg = some s → s ≠ "" →
      detectManager fs managerArg userAgent cwd = s) ∧
    (jsTruthy managerArg = false →
      (jsStartsWith userAgent "pnpm/" = true →
        detectManager fs managerArg userAgent cwd = "pnpm") ∧
      (jsStartsWith userAgent "pnpm/" = false →
        jsStartsWith userAgent "bun/" = true →
        detectManager fs managerArg userAgent cwd = "bun") ∧
      (jsStartsWith userAgent "pnpm/" = false →
        jsStartsWith userAgent "bun/" = false →
        jsStartsWith userAgent "npm/" = true →
        detectManager fs managerArg userAgent cwd = "npm") ∧
      (jsStartsWith userAgent "pnpm/" = false →
        jsStartsWith userAgent "bun/" = false →
        jsStartsWith userAgent "npm/" = false →
        (fs (cwd ++ ["pnpm-lock.yaml"]) = true →
          detectManager fs managerArg userAgent cwd = "pnpm") ∧
        (fs (cwd ++ ["pnpm-lock.yaml"]) = false →
          fs (cwd ++ ["bun.lockb"]) = true →
          detectManager fs managerArg userAgent cwd = "bun") ∧
        (fs (cwd ++ ["pnpm-lock.yaml"]) = false →
          fs (cwd ++ ["bun.lockb"]) = false →
          fs (cwd ++ ["package-lock.json"]) = true →
          detectManager fs managerArg userAgent cwd = "npm") ∧
        (fs (cwd ++ ["pnpm-lock.yaml"]) = false →
          fs (cwd ++ ["bun.lockb"]) = false →
          fs (cwd ++ ["package-lock.json"]) = false →
          detectManager fs managerArg userAgent cwd = "npm"))) := by
  constructor
  · intro s hs hne
    subst hs
    simp [detectManager, jsTruthy, hne]
  · intro hfalsy
    refine ⟨?_, ?_, ?_, ?_⟩ <;> intro h1
    · simp [detectManager, hfalsy, h1]
    · intro h2
      simp [detectManager, hfalsy, h1, h2]
    · intro h2 h3
      simp [detectManager, hfalsy, h1, h2, h3]
    · intro h2 h3
      refine ⟨?_, ?_, ?_, ?_⟩ <;> intro f1
      · simp [detectManager, hfalsy, h1, h2, h3, f1]
      · intro f2
        simp [detectManager, hfalsy, h1, h2, h3, f1, f2]
      · intro f2 f3
        simp [detectManager, hfalsy, h1, h2, h3, f1, f2, f3]
      · intro f2 f3
        simp [detectManager, hfalsy, h1, h2, h3, f1, f2, f3]

/-- C3 witness: the spec's example `userAgent = "pnpm/9.0.0 npm/?"`
with no explicit argument detects pnpm. -/
theorem detectManager_precedence_witness :
    detectManager (fun _ => false) none "pnpm/9.0.0 npm/?" [] = "pnpm" :=
  ((detectManager_precedence (fun _ => false) none
    "pnpm/9.0.0 npm/?" []).2 rfl).1 (by decide)

/-- C6: `loadPeerDependencies` produces one specifier per manifest
peer entry, each `name@version`, in manifest order; an empty or absent
`peerDependencies` yields the empty list. -/
theorem loadPeerDependencies_spec (manifest : Manifest) :
    (loadPeerDependencies manifest).length =
      (manifest.peerDependencies.getD []).length ∧
    (∀ i, (loadPeerDependencies manifest).get? i =
      ((manifest.peerDependencies.getD []).get? i).map
        (fun nv => nv.1 ++ "@" ++ nv.2)) ∧
    (manifest.peerDependencies = none ∨ manifest.peerDependencies = some [] →
      loadPeerDependencies manifest = []) := by
  refine ⟨by simp [loadPeerDependencies], fun i => ?_, fun h => ?_⟩
  · simp [loadPeerDependencies]
  · rcases h with h | h <;> simp [loadPeerDependencies, h]

/-- C6 witness: a manifest without a `peerDependencies` object yields
the empty specifier list. -/
theorem loadPeerDependencies_spec_witness :
    loadPeerDependencies ⟨none⟩ = [] :=
  (loadPeerDependencies_spec ⟨none⟩).2.2 (Or.inl rfl)

/-- C4 counterexample: the claim that `detectManager` always returns a
member of the closed set fails — a truthy explicit `managerArg` is
returned verbatim, so `--manager yarn` yields `"yarn"`, which is
outside the set. -/
theorem detectManager_closed_set_counterexample :
    detectManager (fun _ => false) (some "yarn") "" [] = "yarn" ∧
    "yarn" ∉ (["npm", "pnpm", "bun"] : List String) := by
  refine ⟨?_, by decide⟩
  simp [detectManager, jsTruthy]

/-- C4 amended: `detectManager` is total (never raises, being a total
function of its inputs); a truthy explicit `managerArg` is returned
verbatim (even when outside the closed set), and in every other case
the result lies in the closed set `{npm, pnpm, bun}`. -/
theorem detectManager_total_amended (fs : FS) (managerArg : Option String)
    (userAgent : String) (cwd : List String) :
    (jsTruthy managerArg = true →
      detectManager fs managerArg userAgent cwd = managerArg.getD "") ∧
    (jsTruthy managerArg = false →
      detectManager fs managerArg userAgent cwd ∈
        (["npm", "pnpm", "bun"] : List String)) := by
  constructor
  · intro h
    simp [detectManager, h]
  · intro h
    simp only [detectManager, h, Bool.false_eq_true, if_false]
    split
    · simp
    split
    · simp
    split
    · simp
    split
    · simp
    split
    · simp
    split
    · simp
    · simp

/-- C4 amended witness: with no explicit argument, no recognized
user-agent and no lockfile, the detected manager is in the closed
set. -/
theorem detectManager_total_amended_witness :
    detectManager (fun _ => false) none "" [] ∈
      (["npm", "pnpm", "bun"] : List String) :=
  (detectManager_total_amended (fun _ => false) none "" []).2 rfl

/-- C5: `findPnpmWorkspaceRoot` terminates on every start directory
(it is a total function, defined by a walk whose measure — the number
of path components, which the parent step strictly decreases until the
root `[]`, where parent = current — is well-founded), returns `none`
exactly when no ancestor (the prefixes `p.take n`, including `p`
itself) contains a workspace marker, and otherwise returns the nearest
marker-bearing ancestor: an ancestor with a marker such that every
strictly longer ancestor (closer to the start directory) has none. -/
theorem findPnpmWorkspaceRoot_spec (fs : FS) (p : List String) :
    (findPnpmWorkspaceRoot fs p = none ↔
      ∀ n, hasWorkspaceMarker fs (p.take n) = false) ∧
    (∀ r, findPnpmWorkspaceRoot fs p = some r →
      (∃ n, r = p.take n) ∧ hasWorkspaceMarker fs r = true ∧
      ∀ n, r.length < n → n ≤ p.length →
        hasWorkspaceMarker fs (p.take n) = false) := by
  induction p using findPnpmWorkspaceRoot.induct fs with
  | case1 x hmarker =>
    have hres : findPnpmWorkspaceRoot fs x = some x := by
      rw [findPnpmWorkspaceRoot]
      simp [hmarker]
    constructor
    · rw [hres]
      constructor
      · intro h
        exact Option.noConfusion h
      · intro hall
        have := hall x.length
        rw [List.take_length] at this
        rw [hmarker] at this
        exact Bool.noConfusion this
    · intro r hr
      rw [hres] at hr
      have hrx : x = r := Option.some.inj hr
      subst hrx
      refine ⟨⟨x.length, (List.take_length x).symm⟩, hmarker, ?_⟩
      intro n h1 h2
      omega
  | case2 hmarker =>
    have hm : hasWorkspaceMarker fs ([] : List String) = false :=
      Bool.eq_false_iff.mpr hmarker
    have hres : findPnpmWorkspaceRoot fs [] = none := by
      rw [findPnpmWorkspaceRoot]
      simp [hm]
    constructor
    · rw [hres]
      simp only [true_iff]
      intro n
      simpa using hm
    · intro r hr
      rw [hres] at hr
      exact Option.noConfusion hr
  | case3 x hmarker hne ih =>
    have hm : hasWorkspaceMarker fs x = false := Bool.eq_false_iff.mpr hmarker
    have hL : 0 < x.length := List.length_pos.mpr hne
    have hres : findPnpmWorkspaceRoot fs x =
        findPnpmWorkspaceRoot fs x.dropLast := by
      rw [findPnpmWorkspaceRoot]
      simp [hm, hne]
    have hdl : x.dropLast.length = x.length - 1 := List.length_dropLast x
    have htakeA : ∀ n, n ≤ x.length - 1 → x.dropLast.take n = x.take n := by
      intro n hn
      rw [List.dropLast_eq_take, List.take_take]
      congr 1
      omega
    have htakeB : ∀ n, x.length ≤ n → x.take n = x := fun n hn =>
      List.take_of_length_le hn
    constructor
    · rw [hres, ih.1]
      constructor
      · intro hall n
        by_cases hn : n ≤ x.length - 1
        · rw [← htakeA n hn]
          exact hall n
        · rw [htakeB n (by omega)]
          exact hm
      · intro hall n
        rw [List.dropLast_eq_take, List.take_take]
        exact hall (min n (x.length - 1))
    · intro r hr
      rw [hres] at hr
      obtain ⟨⟨n0, hn0⟩, hmark, hrest⟩ := ih.2 r hr
      refine ⟨⟨min n0 (x.length - 1), ?_⟩, hmark, ?_⟩
      · rw [hn0, List.dropLast_eq_take, List.take_take]
      · intro n h1 h2
        by_cases hn : n ≤ x.length - 1
        · rw [← htakeA n hn]
          exact hrest n h1 (by omega)
        · rw [htakeB n (by omega)]
          exact hm

/-- C5 witness: in a filesystem whose only file is
`a/pnpm-workspace.yaml`, the walk from `a/b` stops at `a`, which is an
ancestor bearing the marker, and the start directory itself bears
none. -/
theorem findPnpmWorkspaceRoot_spec_witness :
    (∃ n, (["a"] : List String) =
      (["a", "b"] : List String).take n) ∧
    hasWorkspaceMarker (fun q => q = ["a", "pnpm-workspace.yaml"])
      ["a"] = true ∧
    ∀ n, (["a"] : List String).length < n →
      n ≤ (["a", "b"] : List String).length →
      hasWorkspaceMarker (fun q => q = ["a", "pnpm-workspace.yaml"])
        ((["a", "b"] : List String).take n) = false :=
  (findPnpmWorkspaceRoot_spec
    (fun q => q = ["a", "pnpm-workspace.yaml"]) ["a", "b"]).2 ["a"]
    (by simp [findPnpmWorkspaceRoot, hasWorkspaceMarker])

/-- The missing-side classification of one peer entry, as the spec
states it: a resolution failure yields a `missing` entry carrying the
failure reason, anything else yields none. -/
def classifyMissing (resolvePkg : String → Except String String) :
    String × String → Option MissingEntry := fun ne =>
  match resolvePkg (ne.1 ++ "/package.json") with
  | .error e => some ⟨ne.1, ne.2, e⟩
  | .ok _ => none

/-- The mismatched-side classification of one peer entry, as the spec
states it: a read/parse failure of the resolved manifest yields a
`mismatched` entry with actual version `"unknown"` and the error as
reason; an installed version not byte-for-byte equal to the expected
one (including an absent version field) yields a `mismatched` entry
with both versions; an equal version and a resolution failure yield
none. -/
def classifyMismatch (resolvePkg : String → Except String String)
    (readPkg : String → Except String PkgManifest) :
    String × String → Option MismatchEntry := fun ne =>
  match resolvePkg (ne.1 ++ "/package.json") with
  | .error _ => none
  | .ok path =>
    match readPkg path with
    | .error e => some ⟨ne.1, ne.2, some "unknown", some e⟩
    | .ok pkg =>
        if pkg.version = some ne.2 then none
        else some ⟨ne.1, ne.2, pkg.version, none⟩

/-- The audit loop computes exactly the two per-entry
classifications, in declaration order. -/
theorem auditLoop_eq_filterMap (resolvePkg : String → Except String String)
    (readPkg : String → Except String PkgManifest)
    (peers : List (String × String)) :
    auditLoop resolvePkg readPkg peers =
      (peers.filterMap (classifyMissing resolvePkg),
       peers.filterMap (classifyMismatch resolvePkg readPkg)) := by
  induction peers with
  | nil => rfl
  | cons head tail ih =>
    obtain ⟨name, expected⟩ := head
    cases hres : resolvePkg (name ++ "/package.json") with
    | error e =>
        simp [auditLoop, List.filterMap_cons, classifyMissing,
          classifyMismatch, hres, ih]
    | ok path =>
        cases hread : readPkg path with
        | error e =>
            simp [auditLoop, List.filterMap_cons, classifyMissing,
              classifyMismatch, hres, hread, ih]
        | ok pkg =>
            by_cases hv : pkg.version = some expected <;>
              simp [auditLoop, List.filterMap_cons, classifyMissing,
                classifyMismatch, hres, hread, hv, ih]

/-- C7: `auditPeerDependencies` classifies every declared peer entry
exactly as the spec states — `missing` is the in-order list of entries
whose resolution failed, carrying the failure reason; `mismatched` is
the in-order list of entries that resolved but whose manifest read
failed (actual version `"unknown"`, the error as reason) or whose
installed version differs from the expected one (both versions
carried); an entry with an equal installed version lands in neither
list; and with zero declared peers the result is immediately empty. -/
theorem auditPeerDependencies_spec
    (resolvePkg : String → Except String String)
    (readPkg : String → Except String PkgManifest) (manifest : Manifest) :
    (auditPeerDependencies resolvePkg readPkg manifest).peers =
      manifest.peerDependencies.getD [] ∧
    (auditPeerDependencies resolvePkg readPkg manifest).missing =
      (manifest.peerDependencies.getD []).filterMap
        (classifyMissing resolvePkg) ∧
    (auditPeerDependencies resolvePkg readPkg manifest).mismatched =
      (manifest.peerDependencies.getD []).filterMap
        (classifyMismatch resolvePkg readPkg) ∧
    (manifest.peerDependencies.getD [] = [] →
      auditPeerDependencies resolvePkg readPkg manifest =
        ⟨[], [], []⟩) := by
  by_cases hp : manifest.peerDependencies.getD [] = []
  · refine ⟨?_, ?_, ?_, fun _ => ?_⟩ <;>
      simp [auditPeerDependencies, hp]
  · have hlen : (manifest.peerDependencies.getD []).length ≠ 0 := by
      simpa [List.length_eq_zero] using hp
    refine ⟨?_, ?_, ?_, fun h => absurd h hp⟩ <;>
      simp [auditPeerDependencies, hlen, auditLoop_eq_filterMap]

/-- C7 witness: a manifest declaring no peers audits to the empty
result. -/
theorem auditPeerDependencies_spec_witness :
    auditPeerDependencies (fun _ => .error "unused")
      (fun _ => .error "unused") ⟨none⟩ = ⟨[], [], []⟩ :=
  (auditPeerDependencies_spec (fun _ => .error "unused")
    (fun _ => .error "unused") ⟨none⟩).2.2.2 rfl

/-- The header line of the audit report. -/
def auditHeaderLine : String :=
  "[signmax-config] Peer dependency check detected issues:"

/-- The closing remediation line of the audit report, naming the
installer CLI. -/
def auditRemediationLine : String :=
  "  Run \"npx signmax-config-peers\" to install the correct versions."

/-- The "Missing peers" block as the spec describes it: present only
when `missing` is non-empty, one `name@expectedVersion` line per
entry. -/
def missingBlockSpec (missing : List MissingEntry) : List String :=
  if missing = [] then []
  else "  Missing peers:" ::
    missing.map (fun item =>
      "    - " ++ item.name ++ "@" ++ item.expectedVersion)

/-- The "Version mismatches" block as the spec describes it: present
only when `mismatched` is non-empty, one
`name@expectedVersion (found actual)` line per entry, the
parenthetical omitted when no actual version is known. -/
def mismatchBlockSpec (mismatched : List MismatchEntry) : List String :=
  if mismatched = [] then []
  else "  Version mismatches:" ::
    mismatched.map (fun item =>
      "    - " ++ item.name ++ "@" ++ item.expectedVersion ++
        (match item.actualVersion with
          | some v => if v = "" then "" else " (found " ++ v ++ ")"
          | none => ""))

/-- C8: `formatAuditMessage` returns `none` exactly when both lists
are empty, and otherwise the newline-join of the header line, the
optional "Missing peers" block, the optional "Version mismatches"
block, and the closing remediation line naming the installer CLI. -/
theorem formatAuditMessage_spec (missing : List MissingEntry)
    (mismatched : List MismatchEntry) :
    (formatAuditMessage missing mismatched = none ↔
      missing = [] ∧ mismatched = []) ∧
    (¬(missing = [] ∧ mismatched = []) →
      formatAuditMessage missing mismatched =
        some (String.intercalate "\n"
          (auditHeaderLine ::
            (missingBlockSpec missing ++ mismatchBlockSpec mismatched ++
              [auditRemediationLine])))) := by
  by_cases hm : missing = [] <;> by_cases hmm : mismatched = [] <;>
    simp [formatAuditMessage, auditHeaderLine, auditRemediationLine,
      missingBlockSpec, mismatchBlockSpec, hm, hmm, List.length_eq_zero]

/-- C8 witness: one missing peer and no mismatches formats to the
header, the "Missing peers" block, and the remediation line. -/
theorem formatAuditMessage_spec_witness :
    formatAuditMessage [⟨"eslint", "9.39.1", "not found"⟩] [] =
      some (String.intercalate "\n"
        (auditHeaderLine ::
          (missingBlockSpec [⟨"eslint", "9.39.1", "not found"⟩] ++
            mismatchBlockSpec [] ++ [auditRemediationLine]))) :=
  (formatAuditMessage_spec [⟨"eslint", "9.39.1", "not found"⟩] []).2
    (by simp)

/-- C9: `prepareInstall` is deterministic — two invocations with
identical inputs (manager argument, user agent, cwd, manifest) over an
identical filesystem produce identical result structures; the
embedding is a pure function, so there is no hidden state to carry
between invocations. -/
theorem prepareInstall_deterministic (fs fs' : FS)
    (managerArg managerArg' : Option String) (userAgent userAgent' : String)
    (cwd cwd' : List String) (manifest manifest' : Manifest)
    (hfs : fs = fs') (ha : managerArg = managerArg')
    (hu : userAgent = userAgent') (hc : cwd = cwd')
    (hm : manifest = manifest') :
    prepareInstall fs managerArg userAgent cwd manifest =
      prepareInstall fs' managerArg' userAgent' cwd' manifest' := by
  subst hfs ha hu hc hm
  rfl

/-- C9 witness: two identical concrete invocations agree. -/
theorem prepareInstall_deterministic_witness :
    prepareInstall (fun _ => false) none "" []
        ⟨some [("eslint", "9.39.1")]⟩ =
      prepareInstall (fun _ => false) none "" []
        ⟨some [("eslint", "9.39.1")]⟩ :=
  prepareInstall_deterministic (fun _ => false) (fun _ => false) none none
    "" "" [] [] ⟨some [("eslint", "9.39.1")]⟩ ⟨some [("eslint", "9.39.1")]⟩
    rfl rfl rfl rfl rfl

/-- C10: the empty-peer short-circuit precedes manager validation —
with an empty or absent `peerDependencies`, `prepareInstall` returns
the `{ packages: [] }` result for every manager argument (including
unsupported names that would make `buildInstallCommand` throw), and
`runCli` (without `--help`) prints the no-peers notice and returns
exit code 0 for every argument vector. -/
theorem prepareInstall_empty_peers_short_circuit (fs : FS)
    (managerArg : Option String) (userAgent : String) (cwd : List String)
    (manifest : Manifest) (args : List String)
    (spawnChild : String → List String → List String → SpawnOutcome)
    (hpeers : manifest.peerDependencies = none ∨
      manifest.peerDependencies = some [])
    (hhelp : args.contains "--help" = false) :
    prepareInstall fs managerArg userAgent cwd manifest =
      .ok .noPeers ∧
    runCli fs args userAgent cwd manifest spawnChild =
      { exitCode := 0,
        stdout := ["No peer dependencies found on @skyltmax/config.\n"],
        stderr := [] } := by
  have hload : loadPeerDependencies manifest = [] := by
    rcases hpeers with h | h <;> simp [loadPeerDependencies, h]
  have hprep : ∀ ma : Option String,
      prepareInstall fs ma userAgent cwd manifest = .ok .noPeers := by
    intro ma
    simp [prepareInstall, hload]
  refine ⟨hprep managerArg, ?_⟩
  have hhelpmem : "--help" ∉ args := by simpa using hhelp
  simp [runCli, hhelpmem, hprep]

/-- C10 witness: the unsupported `--manager yarn` still exits 0 with
the no-peers notice when the manifest declares no peers. -/
theorem prepareInstall_empty_peers_short_circuit_witness :
    prepareInstall (fun _ => false) (some "yarn") "" [] ⟨none⟩ =
      .ok .noPeers ∧
    runCli (fun _ => false) ["--manager", "yarn"] "" [] ⟨none⟩
      (fun _ _ _ => .exited 0) =
      { exitCode := 0,
        stdout := ["No peer dependencies found on @skyltmax/config.\n"],
        stderr := [] } :=
  prepareInstall_empty_peers_short_circuit (fun _ => false) (some "yarn")
    "" [] ⟨none⟩ ["--manager", "yarn"] (fun _ _ _ => .exited 0)
    (Or.inl rfl) (by decide)

end PeerDeps
